import Mathlib

/-!
Shallow embedding of the per-block operations processor of the beacon chain
(package `blocks`, file `block_operations.go`), together with proofs about it.

Modelling conventions:
* Go `uint64` values are modelled as `Nat`; wherever the source performs
  arithmetic that can overflow (`+`, `++` on `uint64`), the embedding wraps
  with an explicit `% 2^64` (`addW`, `incW`).
* Go byte slices are `List Nat`.
* Protobuf messages are immutable Lean structures; slices of message pointers
  are lists of values (slice-header assignments in the source become value
  assignments of the corresponding list fields).
* Fallible Go functions return `Except Fail α`.  Each distinct `return err`
  site in the source has its own `Fail` constructor.  The dedicated
  constructor `Fail.oob` does not correspond to a returned error: it marks a
  Go runtime panic (out-of-range slice indexing, division by zero), so that
  the panicking branches of the source are visible in the total embedding.
* Helpers that the source consumes from other packages
  (`helpers.CurrentEpoch`, `v.PenalizeValidator`, ...) are not part of the
  processed source; they are modelled from the specification and each such
  definition carries a doc comment starting with `Modelled from the spec:`.
* The hash function is an injected capability: definitions that need it take
  it as an explicit argument.
-/

namespace Prysm

/-- Byte strings (Go `[]byte`) as lists of naturals. -/
abbrev Bytes := List Nat

/-- The modulus of Go `uint64` arithmetic. -/
def U64 : Nat := 2 ^ 64

/-- Wrapping `uint64` addition. -/
def addW (a b : Nat) : Nat := (a + b) % U64

/-- Wrapping `uint64` increment (Go `x++`). -/
def incW (a : Nat) : Nat := (a + 1) % U64

/-- Protobuf `Eth1Data`. -/
structure Eth1Data where
  depositRoot : Bytes
  blockHash : Bytes
deriving DecidableEq

/-- Protobuf `Eth1DataVote`: a tally entry `(eth1_data, vote_count)`. -/
structure Eth1DataVote where
  eth1Data : Eth1Data
  voteCount : Nat
deriving DecidableEq

/-- Protobuf `Validator` (the fields the processed source reads or writes). -/
structure Validator where
  pubkey : Bytes
  exitEpoch : Nat
  penalizedEpoch : Nat
  randaoCommitment : Bytes
  randaoLayers : Nat
deriving DecidableEq

/-- Protobuf `Crosslink` (field `shard_block_root`). -/
structure Crosslink where
  epoch : Nat
  shardBlockRoot : Bytes
deriving DecidableEq

/-- Protobuf `AttestationData`. -/
structure AttestationData where
  slot : Nat
  shard : Nat
  justifiedEpoch : Nat
  justifiedBlockRoot : Bytes
  latestCrosslinkRoot : Bytes
  shardBlockRoot : Bytes
deriving DecidableEq

/-- Protobuf `Attestation`. -/
structure Attestation where
  data : AttestationData
  aggregationBitfield : Bytes
  custodyBitfield : Bytes
deriving DecidableEq

/-- Protobuf `PendingAttestationRecord`. -/
structure PendingAttestationRecord where
  data : AttestationData
  aggregationBitfield : Bytes
  custodyBitfield : Bytes
  slotIncluded : Nat
deriving DecidableEq

/-- Protobuf `SlashableAttestation`. -/
structure SlashableAttestation where
  data : AttestationData
  validatorIndices : List Nat
  custodyBitfield : Bytes
deriving DecidableEq

/-- Protobuf `AttesterSlashing`: the two slashable attestations. -/
structure AttesterSlashing where
  slashableAttestation1 : SlashableAttestation
  slashableAttestation2 : SlashableAttestation
deriving DecidableEq

/-- Protobuf `ProposalSignedData`. -/
structure ProposalSignedData where
  slot : Nat
  shard : Nat
  blockRoot : Bytes
deriving DecidableEq

/-- Protobuf `ProposerSlashing` (signatures are opaque to the checks below). -/
structure ProposerSlashing where
  proposerIndex : Nat
  proposalData1 : ProposalSignedData
  proposalData2 : ProposalSignedData
deriving DecidableEq

/-- Protobuf `Exit`. -/
structure Exit where
  epoch : Nat
  validatorIndex : Nat
deriving DecidableEq

/-- Protobuf `BeaconBlockBody` (the operation lists the claims touch). -/
structure BeaconBlockBody where
  proposerSlashings : List ProposerSlashing
  attesterSlashings : List AttesterSlashing
  attestations : List Attestation
  exits : List Exit
deriving DecidableEq

/-- Protobuf `BeaconBlock`. -/
structure BeaconBlock where
  eth1Data : Eth1Data
  randaoReveal : Bytes
  body : BeaconBlockBody
deriving DecidableEq

/-- Protobuf `BeaconState` (the fields the processed source reads or writes). -/
structure BeaconState where
  slot : Nat
  eth1DataVotes : List Eth1DataVote
  validatorRegistry : List Validator
  latestRandaoMixes : List Bytes
  latestCrosslinks : List Crosslink
  latestAttestations : List PendingAttestationRecord
  latestBlockRoots : List Bytes
  justifiedEpoch : Nat
  previousJustifiedEpoch : Nat
deriving DecidableEq

/-- Chain configuration (`params.BeaconConfig()`). -/
structure Config where
  maxProposerSlashings : Nat
  maxAttesterSlashings : Nat
  maxAttestations : Nat
  maxExits : Nat
  maxIndicesPerSlashableVote : Nat
  latestRandaoMixesLength : Nat
  minAttestationInclusionDelay : Nat
  epochLength : Nat
  entryExitDelay : Nat
deriving DecidableEq

/-- Failure outcomes.  One constructor per distinct error-return site of the
source; `oob` marks a Go runtime panic rather than a returned error. -/
inductive Fail where
  | limitProposerSlashings
  | limitAttesterSlashings
  | limitAttestations
  | limitExits
  | slotsMismatch
  | shardsMismatch
  | rootsMismatch
  | attesterDataEqual
  | notDoubleOrSurround
  | custodyAllZero
  | emptyValidatorIndices
  | indicesNotSorted
  | custodyLengthMismatch
  | tooManyIndices
  | noSlashableIndices
  | attTooRecent
  | attTooStale
  | justifiedEpochMismatch
  | prevJustifiedEpochMismatch
  | blockRootFetchFailed
  | justifiedRootMismatch
  | crosslinkMismatch
  | shardRootNonEmpty
  | randaoMismatch
  | proposerLookupFailed
  | penalizeFailed
  | exitEpochCheckFailed
  | exitEpochTooHigh
  | oob
deriving DecidableEq

/-- Result monad of the embedded fallible functions. -/
abbrev M (α : Type) := Except Fail α

/-- Bounds-checked slice indexing.  Go panics on an out-of-range index; the
embedding surfaces that panic as the designated outcome `Fail.oob`. -/
def getIdx {α : Type} (l : List α) (i : Nat) : M α :=
  match l.get? i with
  | some a => Except.ok a
  | none => Except.error Fail.oob

/-- Modelled from the spec: `slot_to_epoch` — helper consumed as a pure
function over slots (§1); an epoch is `EPOCH_LENGTH` consecutive slots. -/
def SlotToEpoch (cfg : Config) (slot : Nat) : Nat := slot / cfg.epochLength

/-- Modelled from the spec: `current_epoch` — helper consumed as a pure
function over the state (§1): the epoch of the state's slot. -/
def CurrentEpoch (cfg : Config) (state : BeaconState) : Nat :=
  SlotToEpoch cfg state.slot

/-- Modelled from the spec: `start_slot` (`get_epoch_start_slot`) — first slot
of an epoch. -/
def StartSlot (cfg : Config) (epoch : Nat) : Nat := epoch * cfg.epochLength

/-- Modelled from the spec: `entry_exit_effect_epoch` — the earliest epoch a
registry change initiated in `epoch` can take effect (glossary); modelled as
`epoch + 1 + entryExitDelay`. -/
def EntryExitEffectEpoch (cfg : Config) (epoch : Nat) : Nat :=
  epoch + 1 + cfg.entryExitDelay

/-- Source `ProcessEth1Data` inner loop: increment the first structurally-equal
tally (`proto.Equal` with `break`), reporting whether one was found. -/
def bumpEth1Votes (target : Eth1Data) : List Eth1DataVote → Option (List Eth1DataVote)
  | [] => none
  | v :: rest =>
    if v.eth1Data = target then
      some ({ v with voteCount := incW v.voteCount } :: rest)
    else
      (bumpEth1Votes target rest).map (v :: ·)

/-- Source `ProcessEth1Data`: tally the block's `eth1_data` vote.  Total, as in the
source (it returns no error). -/
def ProcessEth1Data (state : BeaconState) (block : BeaconBlock) : BeaconState :=
  match bumpEth1Votes block.eth1Data state.eth1DataVotes with
  | some votes => { state with eth1DataVotes := votes }
  | none =>
    { state with
      eth1DataVotes := state.eth1DataVotes ++ [⟨block.eth1Data, 1⟩] }

/-- Source `verifyProposerSlashing`: the per-item checks on a proposer slashing.
The third check mirrors the source exactly: it errors when the two block
roots are NOT byte-equal (`if !bytes.Equal(root1, root2)`). -/
def verifyProposerSlashing (slashing : ProposerSlashing) (_verifySignatures : Bool) : M Unit :=
  let slot1 := slashing.proposalData1.slot
  let slot2 := slashing.proposalData2.slot
  let shard1 := slashing.proposalData1.shard
  let shard2 := slashing.proposalData2.shard
  let root1 := slashing.proposalData1.blockRoot
  let root2 := slashing.proposalData2.blockRoot
  if slot1 ≠ slot2 then Except.error Fail.slotsMismatch
  else if shard1 ≠ shard2 then Except.error Fail.shardsMismatch
  else if root1 ≠ root2 then Except.error Fail.rootsMismatch
  else Except.ok ()

/-- Modelled from the spec: `penalize_validator` (§1) — a validator-registry
mutation recording the penalty; modelled as setting the validator's
`penalized_epoch` to the current epoch (balance and withdrawal-queue policy
are specified elsewhere).  Fails on an index outside the registry. -/
def PenalizeValidator (cfg : Config) (state : BeaconState) (idx : Nat) : M BeaconState :=
  match state.validatorRegistry.get? idx with
  | some v =>
    Except.ok
      { state with
        validatorRegistry :=
          state.validatorRegistry.set idx
            { v with penalizedEpoch := CurrentEpoch cfg state } }
  | none => Except.error Fail.penalizeFailed

/-- Source `ProcessProposerSlashings` loop body.  As in the source, the proposer is
looked up in the registry slice captured before the loop (`registry :=
beaconState.ValidatorRegistry`), while `current_epoch` reads the evolving
state. -/
def processProposerSlashingsLoop (cfg : Config) (vs : Bool) (registry : List Validator) :
    BeaconState → List ProposerSlashing → M BeaconState
  | state, [] => Except.ok state
  | state, slashing :: rest => do
    let _ ← verifyProposerSlashing slashing vs
    let proposer ← getIdx registry slashing.proposerIndex
    let state1 ←
      if CurrentEpoch cfg state < proposer.penalizedEpoch then
        PenalizeValidator cfg state slashing.proposerIndex
      else
        Except.ok state
    processProposerSlashingsLoop cfg vs registry state1 rest

/-- Source `ProcessProposerSlashings`: bound check then the per-slashing loop. -/
def ProcessProposerSlashings (cfg : Config) (state : BeaconState) (block : BeaconBlock)
    (vs : Bool) : M BeaconState :=
  if cfg.maxProposerSlashings < block.body.proposerSlashings.length then
    Except.error Fail.limitProposerSlashings
  else
    processProposerSlashingsLoop cfg vs state.validatorRegistry state
      block.body.proposerSlashings

/-- Helper `mathutil.CeilDiv8`, as described in the spec: `ceil(n/8) = (n+7) >> 3`. -/
def CeilDiv8 (n : Nat) : Nat := (n + 7) / 8

/-- Source `isDoubleVote`: both attestation data target the same epoch. -/
def isDoubleVote (cfg : Config) (data1 data2 : AttestationData) : Bool :=
  SlotToEpoch cfg data1.slot = SlotToEpoch cfg data2.slot

/-- Source `isSurroundVote`: the first vote's source/target interval strictly
surrounds the second's. -/
def isSurroundVote (cfg : Config) (data1 data2 : AttestationData) : Bool :=
  data1.justifiedEpoch < data2.justifiedEpoch &&
    SlotToEpoch cfg data2.slot < SlotToEpoch cfg data1.slot

/-- The adjacent-pair ordering loop of `verifySlashableAttestation`:
`true` when no index pair satisfies `indices[i] >= indices[i+1]`. -/
def ascendingIndices : List Nat → Bool
  | [] => true
  | [_] => true
  | a :: b :: rest => decide (a < b) && ascendingIndices (b :: rest)

/-- Source `verifySlashableAttestation`: well-formedness of a slashable attestation
(custody bitfield not all zero, indices non-empty and strictly ascending,
bitfield length, index-count bound). -/
def verifySlashableAttestation (cfg : Config) (att : SlashableAttestation)
    (_verifySignatures : Bool) : M Unit :=
  if att.custodyBitfield = List.replicate att.custodyBitfield.length 0 then
    Except.error Fail.custodyAllZero
  else if att.validatorIndices.length = 0 then
    Except.error Fail.emptyValidatorIndices
  else if ¬ ascendingIndices att.validatorIndices then
    Except.error Fail.indicesNotSorted
  else if att.custodyBitfield.length ≠ CeilDiv8 att.validatorIndices.length then
    Except.error Fail.custodyLengthMismatch
  else if cfg.maxIndicesPerSlashableVote < att.validatorIndices.length then
    Except.error Fail.tooManyIndices
  else Except.ok ()

/-- Source `verifyAttesterSlashing`: per-item checks on an attester slashing. -/
def verifyAttesterSlashing (cfg : Config) (slashing : AttesterSlashing) (vs : Bool) : M Unit := do
  let data1 := slashing.slashableAttestation1.data
  let data2 := slashing.slashableAttestation2.data
  if data1 = data2 then Except.error Fail.attesterDataEqual
  else if ¬ (isDoubleVote cfg data1 data2 || isSurroundVote cfg data1 data2) then
    Except.error Fail.notDoubleOrSurround
  else do
    let _ ← verifySlashableAttestation cfg slashing.slashableAttestation1 vs
    let _ ← verifySlashableAttestation cfg slashing.slashableAttestation2 vs
    Except.ok ()

/-- Inner loop of `attesterSlashableIndices`: scan the second index list for
`idx1`; on a match, read the registry (panic on out-of-range) and keep the
index when the validator is not yet penalized. -/
def slashableIndicesInner (registry : List Validator) (ce idx1 : Nat) :
    List Nat → M (List Nat)
  | [] => Except.ok []
  | idx2 :: rest =>
    if idx1 = idx2 then do
      let v ← getIdx registry idx1
      let more ← slashableIndicesInner registry ce idx1 rest
      if ce < v.penalizedEpoch then Except.ok (idx1 :: more) else Except.ok more
    else slashableIndicesInner registry ce idx1 rest

/-- Outer loop of `attesterSlashableIndices` over the first index list. -/
def slashableIndicesOuter (registry : List Validator) (ce : Nat) (indices2 : List Nat) :
    List Nat → M (List Nat)
  | [] => Except.ok []
  | idx1 :: rest => do
    let here ← slashableIndicesInner registry ce idx1 indices2
    let more ← slashableIndicesOuter registry ce indices2 rest
    Except.ok (here ++ more)

/-- Source `attesterSlashableIndices`: the indices common to both attestations whose
validator is not yet penalized; errors when the list is empty. -/
def attesterSlashableIndices (cfg : Config) (state : BeaconState)
    (slashing : AttesterSlashing) : M (List Nat) := do
  let indices ←
    slashableIndicesOuter state.validatorRegistry (CurrentEpoch cfg state)
      slashing.slashableAttestation2.validatorIndices
      slashing.slashableAttestation1.validatorIndices
  if indices.length < 1 then Except.error Fail.noSlashableIndices
  else Except.ok indices

/-- Penalize every index in the list, threading the state. -/
def penalizeAll (cfg : Config) : BeaconState → List Nat → M BeaconState
  | state, [] => Except.ok state
  | state, i :: rest => do
    let s ← PenalizeValidator cfg state i
    penalizeAll cfg s rest

/-- Source `ProcessAttesterSlashings` loop body. -/
def processAttesterSlashingsLoop (cfg : Config) (vs : Bool) :
    BeaconState → List AttesterSlashing → M BeaconState
  | state, [] => Except.ok state
  | state, slashing :: rest => do
    let _ ← verifyAttesterSlashing cfg slashing vs
    let idxs ← attesterSlashableIndices cfg state slashing
    let state1 ← penalizeAll cfg state idxs
    processAttesterSlashingsLoop cfg vs state1 rest

/-- Source `ProcessAttesterSlashings`: bound check then the per-slashing loop. -/
def ProcessAttesterSlashings (cfg : Config) (state : BeaconState) (block : BeaconBlock)
    (vs : Bool) : M BeaconState :=
  if cfg.maxAttesterSlashings < block.body.attesterSlashings.length then
    Except.error Fail.limitAttesterSlashings
  else
    processAttesterSlashingsLoop cfg vs state block.body.attesterSlashings

/-- Modelled from the spec: `block_root(state, slot)` (§1, §4.6 step 3) —
helper consumed as a pure lookup over the state's block-root history; its
failure propagates as a distinct error. -/
def BlockRoot (state : BeaconState) (slot : Nat) : M Bytes :=
  match state.latestBlockRoots.get? slot with
  | some r => Except.ok r
  | none => Except.error Fail.blockRootFetchFailed

/-- Continuation of `verifyAttestation` after the justified-epoch selection:
justified block root, crosslink consistency, phase-0 shard-root rule. -/
def verifyAttestationRoots (cfg : Config) (state : BeaconState) (att : Attestation) : M Unit :=
  match BlockRoot state (StartSlot cfg att.data.justifiedEpoch) with
  | Except.error _ => Except.error Fail.blockRootFetchFailed
  | Except.ok blockRoot =>
    if att.data.justifiedBlockRoot ≠ blockRoot then
      Except.error Fail.justifiedRootMismatch
    else
      match getIdx state.latestCrosslinks att.data.shard with
      | Except.error _ => Except.error Fail.oob
      | Except.ok crosslink =>
        if ¬ (att.data.latestCrosslinkRoot = crosslink.shardBlockRoot ∨
              att.data.shardBlockRoot = crosslink.shardBlockRoot) then
          Except.error Fail.crosslinkMismatch
        else if att.data.shardBlockRoot ≠ ([] : Bytes) then
          Except.error Fail.shardRootNonEmpty
        else Except.ok ()

/-- Source `verifyAttestation`: the per-attestation checks, in source order
(inclusion window, justified-epoch selection, justified block root,
crosslink consistency, phase-0 shard-root rule).  The phase-0 check mirrors
the source exactly: it compares the shard block root with the EMPTY byte
slice (`bytes.Equal(att.Data.ShardBlockRootHash32, []byte{})`). -/
def verifyAttestation (cfg : Config) (state : BeaconState) (att : Attestation)
    (_verifySignatures : Bool) : M Unit :=
  if state.slot < addW att.data.slot cfg.minAttestationInclusionDelay then
    Except.error Fail.attTooRecent
  else if addW att.data.slot cfg.epochLength < state.slot then
    Except.error Fail.attTooStale
  else if StartSlot cfg (SlotToEpoch cfg state.slot) ≤ att.data.slot then
    if att.data.justifiedEpoch ≠ state.justifiedEpoch then
      Except.error Fail.justifiedEpochMismatch
    else verifyAttestationRoots cfg state att
  else
    if att.data.justifiedEpoch ≠ state.previousJustifiedEpoch then
      Except.error Fail.prevJustifiedEpochMismatch
    else verifyAttestationRoots cfg state att


/-- Loop of `ProcessBlockAttestations`: verify each attestation against the
(unchanging) state and accumulate the pending records in block order. -/
def processAttestationsLoop (cfg : Config) (state : BeaconState) (vs : Bool) :
    List Attestation → M (List PendingAttestationRecord)
  | [] => Except.ok []
  | att :: rest => do
    let _ ← verifyAttestation cfg state att vs
    let more ← processAttestationsLoop cfg state vs rest
    Except.ok (⟨att.data, att.aggregationBitfield, att.custodyBitfield, state.slot⟩ :: more)

/-- Source `ProcessBlockAttestations`: bound check, per-attestation verification,
then REPLACE `latest_attestations` with the accumulated list. -/
def ProcessBlockAttestations (cfg : Config) (state : BeaconState) (block : BeaconBlock)
    (vs : Bool) : M BeaconState :=
  if cfg.maxAttestations < block.body.attestations.length then
    Except.error Fail.limitAttestations
  else do
    let pending ← processAttestationsLoop cfg state vs block.body.attestations
    Except.ok { state with latestAttestations := pending }

/-- Helper `bytesutil.ToBytes32`: copy at most 32 bytes into a zero-initialized
32-byte array (truncate past 32, right-pad with zeros below 32). -/
def ToBytes32 (b : Bytes) : Bytes :=
  b.take 32 ++ List.replicate (32 - b.length) 0

/-- Modelled from the spec: `repeat_hash` (§4.3) — `repeat_hash(x, 0) = x`
and `repeat_hash(x, n) = hash(repeat_hash(x, n-1))`; the hash is an injected
capability. -/
def RepeatHash (hash : Bytes → Bytes) (x : Bytes) : Nat → Bytes
  | 0 => x
  | n + 1 => hash (RepeatHash hash x n)

/-- Modelled from the spec: `beacon_proposer_index` (§1, §4.3 step 1) —
helper resolving the block proposer for a slot, consumed as a pure function
over the state; the committee assignment it reads depends on the slot and
the registry's membership, not on randao commitments or mixes, so it is
modelled as `slot mod |registry|`, failing on an empty registry (lookup
failures propagate). -/
def BeaconProposerIdx (state : BeaconState) (slot : Nat) : M Nat :=
  if state.validatorRegistry.length = 0 then Except.error Fail.proposerLookupFailed
  else Except.ok (slot % state.validatorRegistry.length)

/-- Source `verifyBlockRandao`: check
`repeat_hash(block.randao_reveal, proposer.randao_layers) == proposer.randao_commitment`. -/
def verifyBlockRandao (hash : Bytes → Bytes) (proposer : Validator) (block : BeaconBlock) :
    M Unit :=
  let blockRandaoReveal := ToBytes32 block.randaoReveal
  let proposerRandaoCommit := ToBytes32 proposer.randaoCommitment
  let randaoHashLayers := RepeatHash hash blockRandaoReveal proposer.randaoLayers
  if randaoHashLayers ≠ proposerRandaoCommit then Except.error Fail.randaoMismatch
  else Except.ok ()

/-- The XOR write-back loop of `ProcessBlockRandao`
(`for i, x := range block.RandaoRevealHash32 { latestMix[i] ^= x }`):
byte-wise XOR of the reveal into the mix prefix; indexing past the 32-byte
mix array is a Go panic. -/
def xorInto (mix reveal : Bytes) : M Bytes :=
  if mix.length < reveal.length then Except.error Fail.oob
  else
    Except.ok (List.zipWith (fun a b => a ^^^ b) (mix.take reveal.length) reveal ++
      mix.drop reveal.length)

/-- Source `ProcessBlockRandao`: resolve the proposer, verify the reveal against the
commitment, XOR the reveal into the mix at `slot mod LATEST_RANDAO_MIXES_LENGTH`,
and reset the proposer's commitment and layers.  A zero configured ring-buffer
length makes the source's modulo panic. -/
def ProcessBlockRandao (hash : Bytes → Bytes) (cfg : Config) (state : BeaconState)
    (block : BeaconBlock) : M BeaconState := do
  let proposerIndex ← BeaconProposerIdx state state.slot
  let proposer ← getIdx state.validatorRegistry proposerIndex
  let _ ← verifyBlockRandao hash proposer block
  if cfg.latestRandaoMixesLength = 0 then Except.error Fail.oob
  else do
    let mixIdx := state.slot % cfg.latestRandaoMixesLength
    let latestMixSlice ← getIdx state.latestRandaoMixes mixIdx
    let newMix ← xorInto (ToBytes32 latestMixSlice) block.randaoReveal
    Except.ok
      { state with
        validatorRegistry :=
          state.validatorRegistry.set proposerIndex
            { proposer with randaoCommitment := block.randaoReveal, randaoLayers := 0 },
        latestRandaoMixes := state.latestRandaoMixes.set mixIdx newMix }

/-- Source `verifyExit`: per-exit checks.  The registry read
`beaconState.ValidatorRegistry[exit.ValidatorIndex]` panics when the index is
out of range. -/
def verifyExit (cfg : Config) (state : BeaconState) (exit : Exit)
    (_verifySignatures : Bool) : M Unit := do
  let validator ← getIdx state.validatorRegistry exit.validatorIndex
  let currentEpoch := CurrentEpoch cfg state
  if validator.exitEpoch ≤ EntryExitEffectEpoch cfg currentEpoch then
    Except.error Fail.exitEpochCheckFailed
  else if currentEpoch < exit.epoch then
    Except.error Fail.exitEpochTooHigh
  else Except.ok ()

/-- Modelled from the spec: `initiate_validator_exit` (§1, §4.8) — a
validator-registry mutation marking the validator as having initiated exit;
modelled as setting the validator's `exit_epoch` to
`entry_exit_effect_epoch(current_epoch(state))` (glossary), the precise
registry policy being specified elsewhere.  Total, as in the source. -/
def InitiateValidatorExit (cfg : Config) (state : BeaconState) (idx : Nat) : BeaconState :=
  match state.validatorRegistry.get? idx with
  | some v =>
    { state with
      validatorRegistry :=
        state.validatorRegistry.set idx
          { v with exitEpoch := EntryExitEffectEpoch cfg (CurrentEpoch cfg state) } }
  | none => state

/-- Loop of `ProcessValidatorExits`: verify each exit against the evolving
state, then initiate the exit. -/
def processExitsLoop (cfg : Config) (vs : Bool) :
    BeaconState → List Exit → M BeaconState
  | state, [] => Except.ok state
  | state, e :: rest => do
    let _ ← verifyExit cfg state e vs
    processExitsLoop cfg vs (InitiateValidatorExit cfg state e.validatorIndex) rest

/-- Source `ProcessValidatorExits`: bound check, the per-exit loop, and — exactly as
in the source — the final write `beaconState.ValidatorRegistry =
validatorRegistry` restoring the registry captured before the loop. -/
def ProcessValidatorExits (cfg : Config) (state : BeaconState) (block : BeaconBlock)
    (vs : Bool) : M BeaconState :=
  if cfg.maxExits < block.body.exits.length then
    Except.error Fail.limitExits
  else do
    let validatorRegistry := state.validatorRegistry
    let s ← processExitsLoop cfg vs state block.body.exits
    Except.ok { s with validatorRegistry := validatorRegistry }

/-- Ghost-instrumented `ProcessProposerSlashings` loop: identical control flow
to `processProposerSlashingsLoop`, additionally recording the index passed to
each `PenalizeValidator` invocation, in invocation order. -/
def processProposerSlashingsLoopTr (cfg : Config) (vs : Bool) (registry : List Validator) :
    BeaconState → List ProposerSlashing → M (BeaconState × List Nat)
  | state, [] => Except.ok (state, [])
  | state, slashing :: rest => do
    let _ ← verifyProposerSlashing slashing vs
    let proposer ← getIdx registry slashing.proposerIndex
    if CurrentEpoch cfg state < proposer.penalizedEpoch then do
      let state1 ← PenalizeValidator cfg state slashing.proposerIndex
      let str ← processProposerSlashingsLoopTr cfg vs registry state1 rest
      Except.ok (str.1, slashing.proposerIndex :: str.2)
    else
      processProposerSlashingsLoopTr cfg vs registry state rest

/-- Ghost-instrumented `ProcessProposerSlashings`: final state plus the list
of indices on which `PenalizeValidator` was invoked. -/
def proposerSlashingsTrace (cfg : Config) (state : BeaconState) (block : BeaconBlock)
    (vs : Bool) : M (BeaconState × List Nat) :=
  if cfg.maxProposerSlashings < block.body.proposerSlashings.length then
    Except.error Fail.limitProposerSlashings
  else
    processProposerSlashingsLoopTr cfg vs state.validatorRegistry state
      block.body.proposerSlashings

/-- Ghost-instrumented `ProcessAttesterSlashings` loop: identical control
flow to `processAttesterSlashingsLoop`, additionally recording every index
passed to `PenalizeValidator`, in invocation order. -/
def processAttesterSlashingsLoopTr (cfg : Config) (vs : Bool) :
    BeaconState → List AttesterSlashing → M (BeaconState × List Nat)
  | state, [] => Except.ok (state, [])
  | state, slashing :: rest => do
    let _ ← verifyAttesterSlashing cfg slashing vs
    let idxs ← attesterSlashableIndices cfg state slashing
    let state1 ← penalizeAll cfg state idxs
    let str ← processAttesterSlashingsLoopTr cfg vs state1 rest
    Except.ok (str.1, idxs ++ str.2)

/-- Ghost-instrumented `ProcessAttesterSlashings`: final state plus the list
of indices on which `PenalizeValidator` was invoked. -/
def attesterSlashingsTrace (cfg : Config) (state : BeaconState) (block : BeaconBlock)
    (vs : Bool) : M (BeaconState × List Nat) :=
  if cfg.maxAttesterSlashings < block.body.attesterSlashings.length then
    Except.error Fail.limitAttesterSlashings
  else
    processAttesterSlashingsLoopTr cfg vs state block.body.attesterSlashings

/-- Decidable equality of results, for evaluating the embedding on concrete
inputs. -/
instance instDecEqExcept {ε α : Type} [DecidableEq ε] [DecidableEq α] :
    DecidableEq (Except ε α) := fun x y =>
  match x, y with
  | Except.ok a, Except.ok b =>
    if h : a = b then Decidable.isTrue (by rw [h])
    else Decidable.isFalse (by intro hc; injection hc; contradiction)
  | Except.error a, Except.error b =>
    if h : a = b then Decidable.isTrue (by rw [h])
    else Decidable.isFalse (by intro hc; injection hc; contradiction)
  | Except.ok _, Except.error _ => Decidable.isFalse (by intro hc; cases hc)
  | Except.error _, Except.ok _ => Decidable.isFalse (by intro hc; cases hc)

/-- Sum of all vote counts of a tally list. -/
def sumVoteCounts (l : List Eth1DataVote) : Nat :=
  (l.map Eth1DataVote.voteCount).sum

/-- The outcome the ETH1 tally stage guarantees: either exactly the first
structurally-matching tally is incremented (everything before it does not
match) or, when nothing matches, exactly one new tally with count 1 is
appended at the end; in both cases the insertion order of existing tallies
is preserved. -/
def eth1TallyOutcome (votes votesNew : List Eth1DataVote) (d : Eth1Data) : Prop :=
  (∃ l1 v l2, votes = l1 ++ v :: l2 ∧ (∀ u ∈ l1, u.eth1Data ≠ d) ∧ v.eth1Data = d ∧
      votesNew = l1 ++ { v with voteCount := incW v.voteCount } :: l2) ∨
  ((∀ u ∈ votes, u.eth1Data ≠ d) ∧ votesNew = votes ++ [⟨d, 1⟩])

/-- The mathematical reading of strict ascent: every adjacent pair of the
list is strictly increasing. -/
def pairwiseAdjacentLt (l : List Nat) : Prop :=
  ∀ i a b, l.get? i = some a → l.get? (i + 1) = some b → a < b

/-- Configuration used by the concrete scenarios: the spec's constants where
it fixes them (`MIN_ATTESTATION_INCLUSION_DELAY = 4`, `EPOCH_LENGTH = 64`)
and representative values elsewhere. -/
def cfgSpec : Config := ⟨16, 1, 128, 16, 4096, 8192, 4, 64, 4⟩

/-- Same configuration with a one-slot randao ring buffer, for the randao
scenario. -/
def cfgTiny : Config := ⟨16, 1, 128, 16, 4096, 1, 4, 64, 4⟩

/-- The 32-byte zero hash (`ZERO_HASH`). -/
def zeroHash32 : Bytes := List.replicate 32 0

/-- A fresh validator (never exited, never penalized). -/
def v0 : Validator := ⟨[], 0, 0, [], 0⟩

/-- A state whose registry holds exactly one validator. -/
def stReg1 : BeaconState := ⟨0, [], [v0], [], [], [], [], 0, 0⟩

/-- Proposer slashing: two proposals at slot 10, shard 3, DISTINCT roots. -/
def slashingDistinctRoots : ProposerSlashing := ⟨7, ⟨10, 3, [1]⟩, ⟨10, 3, [2]⟩⟩

/-- Proposer slashing: two proposals at slot 10, shard 3, EQUAL roots. -/
def slashingEqualRoots : ProposerSlashing := ⟨7, ⟨10, 3, [1]⟩, ⟨10, 3, [1]⟩⟩

/-- State for the attestation scenarios: slot 4, one crosslink whose root is
the 32-byte zero hash, block root `[9]` recorded for slot 0. -/
def attStateEx : BeaconState := ⟨4, [], [], [], [⟨0, zeroHash32⟩], [], [[9]], 0, 0⟩

/-- Attestation whose `shard_block_root` is the 32-byte zero hash. -/
def attZeroRoot : Attestation := ⟨⟨0, 0, 0, [9], zeroHash32, zeroHash32⟩, [1], [1]⟩

/-- Attestation whose `shard_block_root` is the empty byte slice. -/
def attEmptyRoot : Attestation := ⟨⟨0, 0, 0, [9], zeroHash32, []⟩, [1], [1]⟩

/-- Block carrying exactly one (verifying) attestation. -/
def blkOneAtt : BeaconBlock := ⟨⟨[], []⟩, [], ⟨[], [], [attEmptyRoot], []⟩⟩

/-- State at slot 100 for the inclusion-window scenario. -/
def attState100 : BeaconState := ⟨100, [], [], [], [], [], [], 0, 0⟩

/-- Attestation at a given slot for the inclusion-window scenario (its
justified epoch deliberately mismatches the state, so that an attestation
passing the window check still fails a later, non-window check). -/
def attAtSlot (s : Nat) : Attestation := ⟨⟨s, 0, 1, [9], [], []⟩, [], []⟩

/-- State with a single ETH1 tally of count 3 for data `([1], [2])`. -/
def stVotes : BeaconState := ⟨0, [⟨⟨[1], [2]⟩, 3⟩], [], [], [], [], [], 0, 0⟩

/-- Block voting for the already-tallied ETH1 data `([1], [2])`. -/
def blkVote : BeaconBlock := ⟨⟨[1], [2]⟩, [], ⟨[], [], [], []⟩⟩

/-- A 32-byte randao reveal. -/
def revealEx : Bytes := List.replicate 32 7

/-- Validator committed (at zero layers) to `revealEx`. -/
def vCommit : Validator := ⟨[], 0, 0, revealEx, 0⟩

/-- Randao scenario state: one validator, one 32-byte mix. -/
def stRandao : BeaconState := ⟨0, [], [vCommit], [List.replicate 32 5], [], [], [], 0, 0⟩

/-- Block revealing `revealEx`. -/
def blkRandao : BeaconBlock := ⟨⟨[], []⟩, revealEx, ⟨[], [], [], []⟩⟩

/-- The state after one randao application to `stRandao` (the mix bytes are
`5 XOR 7 = 2`). -/
def stRandao1 : BeaconState := ⟨0, [], [vCommit], [List.replicate 32 2], [], [], [], 0, 0⟩

/-- Validator with a far-future exit epoch. -/
def vExit : Validator := ⟨[], 100, 0, [], 0⟩

/-- State with one exit-eligible validator. -/
def stExitW : BeaconState := ⟨0, [], [vExit], [], [], [], [], 0, 0⟩

/-- Block carrying one voluntary exit for validator 0. -/
def blkExitW : BeaconBlock := ⟨⟨[], []⟩, [], ⟨[], [], [], [⟨0, 0⟩]⟩⟩

/-- Block with a well-formed proposer slashing (equal proposal data) naming
validator 0, and no other operations. -/
def blkMono : BeaconBlock := ⟨⟨[], []⟩, [], ⟨[⟨0, ⟨0, 0, []⟩, ⟨0, 0, []⟩⟩], [], [], []⟩⟩

/-- Block with a proposer slashing naming index 5, far beyond the registry. -/
def blkPanic : BeaconBlock := ⟨⟨[], []⟩, [], ⟨[⟨5, ⟨0, 0, []⟩, ⟨0, 0, []⟩⟩], [], [], []⟩⟩

/-- Attester slashing whose index lists name validator 5. -/
def aslashPanic : AttesterSlashing :=
  ⟨⟨⟨0, 0, 0, [], [], []⟩, [5], [1]⟩, ⟨⟨1, 0, 0, [], [], []⟩, [5], [1]⟩⟩

/-- Attestation state with NO crosslinks recorded, so that the crosslink
lookup for shard 0 is out of range. -/
def attStateNoXlink : BeaconState := ⟨4, [], [], [], [], [], [[9]], 0, 0⟩

/-- Slashable attestation with empty validator indices (and a non-zero
custody bitfield). -/
def slashableEmptyIndices : SlashableAttestation := ⟨⟨0, 0, 0, [], [], []⟩, [], [1]⟩

/-- Claim C1 (code bug): the source's root check is inverted.
`verifyProposerSlashing` REJECTS a slashing whose two proposals are at the
same slot and shard but carry DISTINCT block roots, and ACCEPTS one whose
block roots are byte-equal — the opposite of the claim (and of the
function's own spec comment `block_root_1 != block_root_2`). -/
theorem c1_proposer_slashing_root_check :
    verifyProposerSlashing slashingDistinctRoots false = Except.error Fail.rootsMismatch ∧
    verifyProposerSlashing slashingDistinctRoots true = Except.error Fail.rootsMismatch ∧
    verifyProposerSlashing slashingEqualRoots false = Except.ok () ∧
    verifyProposerSlashing slashingEqualRoots true = Except.ok () :=
  ⟨rfl, rfl, rfl, rfl⟩

/-- Claim C3 (code bug): the phase-0 rule compares the shard block root with
the EMPTY byte slice, not with the 32-byte zero hash.  An attestation whose
`shard_block_root` is 32 zero bytes — which the claim requires to be
accepted — is rejected, while only a zero-length root passes the check. -/
theorem c3_shard_root_zero_hash_rejected :
    verifyAttestation cfgSpec attStateEx attZeroRoot false =
      Except.error Fail.shardRootNonEmpty ∧
    verifyAttestation cfgSpec attStateEx attEmptyRoot false = Except.ok () :=
  ⟨rfl, rfl⟩

/-- Claim C10: the operation processors index state arrays with
operation-supplied indices without bounds checks; on each of the four named
sites an out-of-range index reaches the panicking branch (`Fail.oob`, the
embedding's runtime-panic outcome) instead of producing a typed error. -/
theorem c10_unchecked_indexing_panics :
    ProcessProposerSlashings cfgSpec stReg1 blkPanic false = Except.error Fail.oob ∧
    attesterSlashableIndices cfgSpec stReg1 aslashPanic = Except.error Fail.oob ∧
    verifyExit cfgSpec stReg1 ⟨0, 9⟩ false = Except.error Fail.oob ∧
    verifyAttestation cfgSpec attStateNoXlink attEmptyRoot false = Except.error Fail.oob :=
  ⟨rfl, rfl, rfl, rfl⟩

/-- Claim C2 (code bug): `ProcessValidatorExits` restores the validator
registry captured before its loop, so every registry change made by
`initiate_validator_exit` is discarded — any successfully returned state
carries the input state's registry unchanged, contradicting the claim that
the returned state is the fold of `initiate_validator_exit` over the exits. -/
theorem c2_exits_registry_discarded (cfg : Config) (state : BeaconState)
    (block : BeaconBlock) (vs : Bool) (s1 : BeaconState)
    (h : ProcessValidatorExits cfg state block vs = Except.ok s1) :
    s1.validatorRegistry = state.validatorRegistry := by
  unfold ProcessValidatorExits at h
  split at h
  · simp at h
  · cases hl : processExitsLoop cfg vs state block.body.exits with
    | error e => rw [hl] at h; simp [Bind.bind, Except.bind] at h
    | ok s0 =>
      rw [hl] at h
      simp only [Bind.bind, Except.bind, Except.ok.injEq] at h
      subst h
      rfl

/-- Witness for C2: on a concrete state with one exit-eligible validator and
a block with one voluntary exit, processing succeeds yet returns the input
registry unchanged, although `initiate_validator_exit` does change the
registry it is given. -/
theorem c2_exits_registry_discarded_witness :
    BeaconState.validatorRegistry stExitW = BeaconState.validatorRegistry stExitW ∧
    (InitiateValidatorExit cfgSpec stExitW 0).validatorRegistry ≠
      stExitW.validatorRegistry :=
  ⟨c2_exits_registry_discarded cfgSpec stExitW blkExitW false stExitW rfl, by decide⟩

/-- The boolean adjacent-pair loop decides exactly strict ascent of every
adjacent pair. -/
theorem ascendingIndices_iff_pairwise (l : List Nat) :
    ascendingIndices l = true ↔ pairwiseAdjacentLt l := by
  induction l with
  | nil =>
    constructor
    · intro _ i x y hx _
      exact Option.noConfusion hx
    · intro _
      rfl
  | cons a rest ih =>
    cases rest with
    | nil =>
      constructor
      · intro _ i x y hx hy
        cases i with
        | zero => exact Option.noConfusion hy
        | succ n => exact Option.noConfusion hx
      · intro _
        rfl
    | cons b rest2 =>
      constructor
      · intro h i x y hx hy
        have hab : decide (a < b) = true ∧ ascendingIndices (b :: rest2) = true := by
          simpa [ascendingIndices, Bool.and_eq_true] using h
        cases i with
        | zero =>
          have hx2 : a = x := Option.some.inj hx
          have hy2 : b = y := Option.some.inj hy
          rw [← hx2, ← hy2]
          exact of_decide_eq_true hab.1
        | succ n => exact (ih.1 hab.2) n x y hx hy
      · intro h
        have h0 : a < b := h 0 a b rfl rfl
        have h1 : pairwiseAdjacentLt (b :: rest2) := by
          intro i x y hx hy
          exact h (i + 1) x y hx hy
        show (decide (a < b) && ascendingIndices (b :: rest2)) = true
        rw [Bool.and_eq_true]
        exact ⟨decide_eq_true h0, ih.2 h1⟩

/-- Claim C8: slashable-attestation well-formedness fails when the validator
index list is empty, fails when it is not strictly ascending, and the
ordering loop succeeds exactly when every adjacent index pair is strictly
increasing. -/
theorem c8_slashable_attestation_ordering (cfg : Config) (att : SlashableAttestation)
    (vs : Bool) :
    (att.validatorIndices = [] →
      ∃ f, verifySlashableAttestation cfg att vs = Except.error f) ∧
    (ascendingIndices att.validatorIndices = false →
      ∃ f, verifySlashableAttestation cfg att vs = Except.error f) ∧
    (ascendingIndices att.validatorIndices = true ↔
      pairwiseAdjacentLt att.validatorIndices) := by
  refine ⟨?_, ?_, ascendingIndices_iff_pairwise _⟩
  · intro he
    unfold verifySlashableAttestation
    split
    · exact ⟨_, rfl⟩
    · refine ⟨Fail.emptyValidatorIndices, ?_⟩
      simp [he]
  · intro hna
    unfold verifySlashableAttestation
    split
    · exact ⟨_, rfl⟩
    · split
      · exact ⟨_, rfl⟩
      · refine ⟨Fail.indicesNotSorted, ?_⟩
        simp [hna]

/-- Witness for C8: a slashable attestation with empty validator indices is
rejected. -/
theorem c8_slashable_attestation_ordering_witness :
    ∃ f, verifySlashableAttestation cfgSpec slashableEmptyIndices false = Except.error f :=
  (c8_slashable_attestation_ordering cfgSpec slashableEmptyIndices false).1 rfl

/-- The tally loop reports no match exactly when no existing tally equals
the target. -/
theorem bumpEth1Votes_none (d : Eth1Data) (votes : List Eth1DataVote) :
    bumpEth1Votes d votes = none ↔ ∀ u ∈ votes, u.eth1Data ≠ d := by
  induction votes with
  | nil => simp [bumpEth1Votes]
  | cons v rest ih =>
    by_cases h : v.eth1Data = d
    · constructor
      · intro hn
        rw [bumpEth1Votes, if_pos h] at hn
        exact Option.noConfusion hn
      · intro hall
        exact absurd h (hall v (List.mem_cons_self v rest))
    · constructor
      · intro hn
        rw [bumpEth1Votes, if_neg h] at hn
        have hrest : bumpEth1Votes d rest = none := by
          cases hb : bumpEth1Votes d rest with
          | none => rfl
          | some l => rw [hb] at hn; exact Option.noConfusion hn
        intro u hu
        rcases List.mem_cons.mp hu with rfl | hu2
        · exact h
        · exact (ih.mp hrest) u hu2
      · intro hall
        rw [bumpEth1Votes, if_neg h,
          ih.mpr (fun u hu => hall u (List.mem_cons_of_mem v hu))]
        rfl

/-- The tally loop's match case: the first structurally-equal tally, and
only it, is incremented; everything before it does not match and everything
around it is kept verbatim. -/
theorem bumpEth1Votes_some (d : Eth1Data) :
    ∀ votes out, bumpEth1Votes d votes = some out →
      ∃ l1 v l2, votes = l1 ++ v :: l2 ∧ (∀ u ∈ l1, u.eth1Data ≠ d) ∧ v.eth1Data = d ∧
        out = l1 ++ { v with voteCount := incW v.voteCount } :: l2 := by
  intro votes
  induction votes with
  | nil => intro out h; exact Option.noConfusion h
  | cons v rest ih =>
    intro out h
    by_cases hv : v.eth1Data = d
    · rw [bumpEth1Votes, if_pos hv] at h
      refine ⟨[], v, rest, rfl, by intro u hu; exact absurd hu (List.not_mem_nil u), hv, ?_⟩
      exact (Option.some.inj h).symm
    · rw [bumpEth1Votes, if_neg hv] at h
      cases hb : bumpEth1Votes d rest with
      | none => rw [hb] at h; exact Option.noConfusion h
      | some out2 =>
        rw [hb] at h
        have hout : v :: out2 = out := Option.some.inj h
        rcases ih out2 hb with ⟨l1, w, l2, hsplit, hl1, hw, hout2⟩
        refine ⟨v :: l1, w, l2, by rw [hsplit]; rfl, ?_, hw, ?_⟩
        · intro u hu
          rcases List.mem_cons.mp hu with rfl | hu2
          · exact hv
          · exact hl1 u hu2
        · rw [← hout, hout2]
          rfl

/-- Claim C6: `ProcessEth1Data` never fails (it is a total function), and
either increments the single first structurally-matching tally or appends
exactly one new tally with count 1 at the end, preserving the order of the
existing tallies; the vote-count sum grows by exactly one (stated under the
`uint64` no-overflow bound on the counts). -/
theorem c6_eth1_tally (state : BeaconState) (block : BeaconBlock)
    (hcnt : ∀ u ∈ state.eth1DataVotes, u.voteCount + 1 < U64) :
    eth1TallyOutcome state.eth1DataVotes (ProcessEth1Data state block).eth1DataVotes
      block.eth1Data ∧
    sumVoteCounts (ProcessEth1Data state block).eth1DataVotes =
      sumVoteCounts state.eth1DataVotes + 1 := by
  have houtcome : eth1TallyOutcome state.eth1DataVotes
      (ProcessEth1Data state block).eth1DataVotes block.eth1Data := by
    unfold ProcessEth1Data
    cases hb : bumpEth1Votes block.eth1Data state.eth1DataVotes with
    | none => exact Or.inr ⟨(bumpEth1Votes_none _ _).mp hb, rfl⟩
    | some out =>
      exact Or.inl (bumpEth1Votes_some _ _ _ hb)
  refine ⟨houtcome, ?_⟩
  rcases houtcome with ⟨l1, v, l2, h1, h2, h3, h4⟩ | ⟨_, happ⟩
  · have hv1 : incW v.voteCount = v.voteCount + 1 := by
      have hlt := hcnt v (by rw [h1]; exact List.mem_append_right _ (List.mem_cons_self _ _))
      unfold incW
      exact Nat.mod_eq_of_lt hlt
    rw [h4, h1]
    simp only [sumVoteCounts, List.map_append, List.sum_append, List.map_cons,
      List.sum_cons, hv1]
    omega
  · rw [happ]
    simp [sumVoteCounts, List.map_append, List.sum_append]

/-- Witness for C6: a block voting for already-tallied ETH1 data increments
that tally and the count sum grows by one. -/
theorem c6_eth1_tally_witness :
    eth1TallyOutcome stVotes.eth1DataVotes (ProcessEth1Data stVotes blkVote).eth1DataVotes
      blkVote.eth1Data ∧
    sumVoteCounts (ProcessEth1Data stVotes blkVote).eth1DataVotes =
      sumVoteCounts stVotes.eth1DataVotes + 1 :=
  c6_eth1_tally stVotes blkVote (by decide)

/-- When every attestation verifies, the accumulation loop returns exactly
one pending record per attestation, in block order, each carrying the
attestation's fields and `slot_included = state.slot`. -/
theorem processAttestationsLoop_all_ok (cfg : Config) (state : BeaconState) (vs : Bool) :
    ∀ l : List Attestation,
      (∀ att ∈ l, verifyAttestation cfg state att vs = Except.ok ()) →
      processAttestationsLoop cfg state vs l =
        Except.ok (l.map fun att =>
          (⟨att.data, att.aggregationBitfield, att.custodyBitfield, state.slot⟩ :
            PendingAttestationRecord)) := by
  intro l
  induction l with
  | nil => intro _; rfl
  | cons att rest ih =>
    intro hall
    have hhead : verifyAttestation cfg state att vs = Except.ok () :=
      hall att (List.mem_cons_self att rest)
    have htail := ih (fun a ha => hall a (List.mem_cons_of_mem att ha))
    unfold processAttestationsLoop
    simp only [hhead, htail]
    rfl

/-- Claim C5: for a block whose attestations all verify (and fit the bound),
`ProcessBlockAttestations` succeeds and REPLACES `latest_attestations` with
exactly one pending record per block attestation, in block order, each with
the attestation's data and bitfields and `slot_included = state.slot`; in
particular the new list's length equals the block's attestation count. -/
theorem c5_attestations_replace_latest (cfg : Config) (state : BeaconState)
    (block : BeaconBlock) (vs : Bool)
    (hlen : block.body.attestations.length ≤ cfg.maxAttestations)
    (hver : ∀ att ∈ block.body.attestations,
      verifyAttestation cfg state att vs = Except.ok ()) :
    ProcessBlockAttestations cfg state block vs =
      Except.ok { state with latestAttestations :=
        block.body.attestations.map fun att =>
          ⟨att.data, att.aggregationBitfield, att.custodyBitfield, state.slot⟩ } := by
  unfold ProcessBlockAttestations
  rw [if_neg (Nat.not_lt.mpr hlen)]
  simp only [processAttestationsLoop_all_ok cfg state vs _ hver]
  rfl

/-- Witness for C5: a block with one verifying attestation replaces
`latest_attestations` with exactly its one pending record. -/
theorem c5_attestations_replace_latest_witness :
    ProcessBlockAttestations cfgSpec attStateEx blkOneAtt false =
      Except.ok { attStateEx with latestAttestations :=
        blkOneAtt.body.attestations.map fun att =>
          ⟨att.data, att.aggregationBitfield, att.custodyBitfield, attStateEx.slot⟩ } :=
  c5_attestations_replace_latest cfgSpec attStateEx blkOneAtt false (by decide)
    (by
      intro att h
      have h2 : att ∈ [attEmptyRoot] := h
      rw [List.mem_singleton] at h2
      subst h2
      rfl)

/-- The checks following the inclusion window never produce a window
error. -/
theorem verifyAttestationRoots_not_window (cfg : Config) (state : BeaconState)
    (att : Attestation) :
    verifyAttestationRoots cfg state att ≠ Except.error Fail.attTooRecent ∧
    verifyAttestationRoots cfg state att ≠ Except.error Fail.attTooStale := by
  constructor <;>
  · unfold verifyAttestationRoots
    split
    · decide
    · split
      · decide
      · split
        · decide
        · split
          · decide
          · split
            · decide
            · decide

/-- Claim C4: attestation verification fails with a window error exactly when
`att.slot + MIN_ATTESTATION_INCLUSION_DELAY > state.slot` (too recent) or
`att.slot + EPOCH_LENGTH < state.slot` (too stale), the sums taken in
`uint64` arithmetic; concretely at `state.slot = 100` with delay 4 and epoch
length 64, slot 96 passes the window check while 97 and 35 fail it. -/
theorem c4_attestation_inclusion_window :
    (∀ (cfg : Config) (state : BeaconState) (att : Attestation) (vs : Bool),
      (verifyAttestation cfg state att vs = Except.error Fail.attTooRecent ∨
       verifyAttestation cfg state att vs = Except.error Fail.attTooStale) ↔
      (state.slot < addW att.data.slot cfg.minAttestationInclusionDelay ∨
       addW att.data.slot cfg.epochLength < state.slot)) ∧
    verifyAttestation cfgSpec attState100 (attAtSlot 96) false ≠
      Except.error Fail.attTooRecent ∧
    verifyAttestation cfgSpec attState100 (attAtSlot 96) false ≠
      Except.error Fail.attTooStale ∧
    verifyAttestation cfgSpec attState100 (attAtSlot 97) false =
      Except.error Fail.attTooRecent ∧
    verifyAttestation cfgSpec attState100 (attAtSlot 35) false =
      Except.error Fail.attTooStale := by
  refine ⟨?_, by decide, by decide, by decide, by decide⟩
  intro cfg state att vs
  unfold verifyAttestation
  by_cases h1 : state.slot < addW att.data.slot cfg.minAttestationInclusionDelay
  · rw [if_pos h1]
    exact ⟨fun _ => Or.inl h1, fun _ => Or.inl rfl⟩
  · rw [if_neg h1]
    by_cases h2 : addW att.data.slot cfg.epochLength < state.slot
    · rw [if_pos h2]
      exact ⟨fun _ => Or.inr h2, fun _ => Or.inr rfl⟩
    · rw [if_neg h2]
      constructor
      · intro hor
        have hnw := verifyAttestationRoots_not_window cfg state att
        exfalso
        rcases hor with hw | hw
        · split at hw
          · split at hw
            · exact absurd hw (by decide)
            · exact hnw.1 hw
          · split at hw
            · exact absurd hw (by decide)
            · exact hnw.1 hw
        · split at hw
          · split at hw
            · exact absurd hw (by decide)
            · exact hnw.2 hw
          · split at hw
            · exact absurd hw (by decide)
            · exact hnw.2 hw
      · intro hor
        rcases hor with h | h
        · exact absurd h h1
        · exact absurd h h2

/-- Witness for C4: the window characterization evaluated at the too-recent
scenario (`state.slot = 100`, `att.slot = 97`). -/
theorem c4_attestation_inclusion_window_witness :
    (verifyAttestation cfgSpec attState100 (attAtSlot 97) false =
        Except.error Fail.attTooRecent ∨
      verifyAttestation cfgSpec attState100 (attAtSlot 97) false =
        Except.error Fail.attTooStale) ↔
      (attState100.slot < addW (attAtSlot 97).data.slot cfgSpec.minAttestationInclusionDelay ∨
        addW (attAtSlot 97).data.slot cfgSpec.epochLength < attState100.slot) :=
  c4_attestation_inclusion_window.1 cfgSpec attState100 (attAtSlot 97) false

/-- Indexing characterization of the bounds-checked access. -/
theorem getIdx_ok {α : Type} (l : List α) (i : Nat) (a : α) :
    getIdx l i = Except.ok a ↔ l.get? i = some a := by
  unfold getIdx
  cases h : l.get? i <;> simp

/-- A successful optional lookup implies the index is in range. -/
theorem get?_some_lt {α : Type} {l : List α} {i : Nat} {a : α}
    (h : l.get? i = some a) : i < l.length := by
  by_contra hc
  rw [List.get?_eq_none.mpr (Nat.le_of_not_lt hc)] at h
  exact Option.noConfusion h

/-- Reading back an in-range write. -/
theorem get?_set_self {α : Type} :
    ∀ (l : List α) (i : Nat) (a : α), i < l.length → (l.set i a).get? i = some a := by
  intro l
  induction l with
  | nil => intro i a hi; exact absurd hi (Nat.not_lt_zero i)
  | cons x xs ih =>
    intro i a hi
    cases i with
    | zero => rfl
    | succ n => exact ih n a (Nat.lt_of_succ_lt_succ hi)

/-- Writes at other positions do not disturb a read. -/
theorem get?_set_ne {α : Type} :
    ∀ (l : List α) (i j : Nat) (a : α), i ≠ j → (l.set i a).get? j = l.get? j := by
  intro l
  induction l with
  | nil => intro i j a _; rfl
  | cons x xs ih =>
    intro i j a hij
    cases i with
    | zero =>
      cases j with
      | zero => exact absurd rfl hij
      | succ m => rfl
    | succ n =>
      cases j with
      | zero => rfl
      | succ m => exact ih n m a (fun hc => hij (by rw [hc]))

/-- Byte-wise XOR in, XOR in again: the identity, pointwise. -/
theorem zipWith_xor_cancel :
    ∀ a b : Bytes, a.length = b.length →
      List.zipWith (fun x y => x ^^^ y) (List.zipWith (fun x y => x ^^^ y) a b) b = a := by
  intro a
  induction a with
  | nil =>
    intro b h
    cases b with
    | nil => rfl
    | cons y ys => exact absurd h (by simp)
  | cons x xs ih =>
    intro b h
    cases b with
    | nil => exact absurd h (by simp)
    | cons y ys =>
      simp only [List.zipWith]
      rw [Nat.xor_assoc, Nat.xor_self, Nat.xor_zero]
      rw [ih ys (by simpa using h)]

/-- The function `ToBytes32` is the identity on 32-byte strings. -/
theorem ToBytes32_of_len32 (b : Bytes) (h : b.length = 32) : ToBytes32 b = b := by
  unfold ToBytes32
  rw [h, Nat.sub_self, List.replicate_zero, List.append_nil,
    List.take_of_length_le (Nat.le_of_eq h)]

/-- The XOR write-back on equal 32-byte strings succeeds and is plain
pointwise XOR. -/
theorem xorInto_of_len (mix reveal : Bytes) (hm : mix.length = 32) (hr : reveal.length = 32) :
    xorInto mix reveal = Except.ok (List.zipWith (fun x y => x ^^^ y) mix reveal) := by
  unfold xorInto
  rw [if_neg (by omega), hr, List.take_of_length_le (by omega),
    List.drop_eq_nil_of_le (by omega), List.append_nil]

/-- Inversion of a successful `ProcessBlockRandao` run: the proposer lookup,
the randao verification, the mix lookup and the XOR all succeeded, and the
returned state is the input with the proposer reset and the mix replaced. -/
theorem ProcessBlockRandao_ok_inv (hash : Bytes → Bytes) (cfg : Config)
    (state : BeaconState) (block : BeaconBlock) (s1 : BeaconState)
    (h : ProcessBlockRandao hash cfg state block = Except.ok s1) :
    ∃ proposer mix newMix,
      state.validatorRegistry.length ≠ 0 ∧
      cfg.latestRandaoMixesLength ≠ 0 ∧
      state.validatorRegistry.get? (state.slot % state.validatorRegistry.length) =
        some proposer ∧
      verifyBlockRandao hash proposer block = Except.ok () ∧
      state.latestRandaoMixes.get? (state.slot % cfg.latestRandaoMixesLength) = some mix ∧
      xorInto (ToBytes32 mix) block.randaoReveal = Except.ok newMix ∧
      s1 = { state with
        validatorRegistry := state.validatorRegistry.set
          (state.slot % state.validatorRegistry.length)
          { proposer with randaoCommitment := block.randaoReveal, randaoLayers := 0 },
        latestRandaoMixes := state.latestRandaoMixes.set
          (state.slot % cfg.latestRandaoMixesLength) newMix } := by
  unfold ProcessBlockRandao BeaconProposerIdx at h
  by_cases hreg : state.validatorRegistry.length = 0
  · rw [if_pos hreg] at h
    simp [Bind.bind, Except.bind] at h
  · rw [if_neg hreg] at h
    simp only [Bind.bind, Except.bind] at h
    cases hget : getIdx state.validatorRegistry (state.slot % state.validatorRegistry.length) with
    | error e => simp only [hget] at h; exact Except.noConfusion h
    | ok proposer =>
      simp only [hget] at h
      cases hver : verifyBlockRandao hash proposer block with
      | error e => simp only [hver] at h; exact Except.noConfusion h
      | ok u =>
        cases u
        simp only [hver] at h
        by_cases hlen : cfg.latestRandaoMixesLength = 0
        · rw [if_pos hlen] at h
          simp at h
        · rw [if_neg hlen] at h
          cases hmixg : getIdx state.latestRandaoMixes
              (state.slot % cfg.latestRandaoMixesLength) with
          | error e => simp only [hmixg] at h; exact Except.noConfusion h
          | ok mix =>
            simp only [hmixg] at h
            cases hxor : xorInto (ToBytes32 mix) block.randaoReveal with
            | error e => simp only [hxor] at h; exact Except.noConfusion h
            | ok newMix =>
              simp only [hxor, Except.ok.injEq] at h
              exact ⟨proposer, mix, newMix, hreg, hlen, (getIdx_ok _ _ _).mp hget,
                hver, (getIdx_ok _ _ _).mp hmixg, hxor, h.symm⟩

/-- Claim C7: if `ProcessBlockRandao` succeeds on a state, running it again
with the same reveal at the same slot also succeeds (the first application
set the proposer's commitment to the reveal at zero layers) and restores the
randao mix at `slot mod LATEST_RANDAO_MIXES_LENGTH` to its value before the
first application (byte-wise XOR is self-inverse).  Stated for 32-byte
reveals and mixes, the shape the ring buffer always holds. -/
theorem c7_randao_involution (hash : Bytes → Bytes) (cfg : Config) (state : BeaconState)
    (block : BeaconBlock) (s1 : BeaconState)
    (h : ProcessBlockRandao hash cfg state block = Except.ok s1)
    (hrev : block.randaoReveal.length = 32)
    (hmix : ∀ m, state.latestRandaoMixes.get? (state.slot % cfg.latestRandaoMixesLength) =
      some m → m.length = 32) :
    ∃ s2, ProcessBlockRandao hash cfg s1 block = Except.ok s2 ∧
      s2.latestRandaoMixes.get? (state.slot % cfg.latestRandaoMixesLength) =
        state.latestRandaoMixes.get? (state.slot % cfg.latestRandaoMixesLength) := by
  rcases ProcessBlockRandao_ok_inv hash cfg state block s1 h with
    ⟨proposer, mix, newMix, hreg, hlen, hget, _, hmg, hxor, hs1⟩
  have hm32 : mix.length = 32 := hmix mix hmg
  have hT : ToBytes32 mix = mix := ToBytes32_of_len32 mix hm32
  have hxor2 : newMix = List.zipWith (fun x y => x ^^^ y) mix block.randaoReveal := by
    rw [hT, xorInto_of_len mix block.randaoReveal hm32 hrev] at hxor
    exact (Except.ok.inj hxor).symm
  have hnew32 : newMix.length = 32 := by
    rw [hxor2, List.length_zipWith, hm32, hrev]
    exact Nat.min_self 32
  have hpidx : state.slot % state.validatorRegistry.length <
      state.validatorRegistry.length :=
    Nat.mod_lt _ (Nat.pos_of_ne_zero hreg)
  have hmidx : state.slot % cfg.latestRandaoMixesLength <
      state.latestRandaoMixes.length := get?_some_lt hmg
  have hcancel : List.zipWith (fun x y => x ^^^ y) newMix block.randaoReveal = mix := by
    rw [hxor2]
    exact zipWith_xor_cancel mix block.randaoReveal (by rw [hm32, hrev])
  subst hs1
  have hver2 : verifyBlockRandao hash
      { proposer with randaoCommitment := block.randaoReveal, randaoLayers := 0 } block =
      Except.ok () := by
    simp [verifyBlockRandao, RepeatHash]
  have hrun : ProcessBlockRandao hash cfg
      { state with
        validatorRegistry := state.validatorRegistry.set
          (state.slot % state.validatorRegistry.length)
          { proposer with randaoCommitment := block.randaoReveal, randaoLayers := 0 },
        latestRandaoMixes := state.latestRandaoMixes.set
          (state.slot % cfg.latestRandaoMixesLength) newMix }
      block = Except.ok
      { state with
        validatorRegistry := (state.validatorRegistry.set
          (state.slot % state.validatorRegistry.length)
          { proposer with randaoCommitment := block.randaoReveal, randaoLayers := 0 }).set
          (state.slot % state.validatorRegistry.length)
          { proposer with randaoCommitment := block.randaoReveal, randaoLayers := 0 },
        latestRandaoMixes := (state.latestRandaoMixes.set
          (state.slot % cfg.latestRandaoMixesLength) newMix).set
          (state.slot % cfg.latestRandaoMixesLength) mix } := by
    unfold ProcessBlockRandao BeaconProposerIdx getIdx
    simp only [Bind.bind, Except.bind, List.length_set]
    rw [if_neg hreg]
    dsimp only
    rw [get?_set_self _ _ _ hpidx]
    dsimp only
    rw [hver2]
    dsimp only
    rw [if_neg hlen]
    rw [get?_set_self _ _ _ hmidx]
    dsimp only
    rw [ToBytes32_of_len32 newMix hnew32,
      xorInto_of_len newMix block.randaoReveal hnew32 hrev, hcancel]
  refine ⟨_, hrun, ?_⟩
  rw [get?_set_self _ _ mix (by rw [List.length_set]; exact hmidx)]
  exact hmg.symm

/-- Witness for C7: a concrete one-validator state whose 32-byte mix `5…5`
is taken to `2…2` by the reveal `7…7` and restored by the second run. -/
theorem c7_randao_involution_witness :
    ∃ s2, ProcessBlockRandao (fun b => b) cfgTiny stRandao1 blkRandao = Except.ok s2 ∧
      s2.latestRandaoMixes.get? (stRandao.slot % cfgTiny.latestRandaoMixesLength) =
        stRandao.latestRandaoMixes.get? (stRandao.slot % cfgTiny.latestRandaoMixesLength) :=
  c7_randao_involution (fun b => b) cfgTiny stRandao blkRandao stRandao1 (by decide)
    (by decide)
    (by
      intro m hm
      have hm2 : some (List.replicate 32 5) = some m := hm
      rw [← Option.some.inj hm2]
      rfl)

/-- Penalizing never changes the slot. -/
theorem PenalizeValidator_slot (cfg : Config) (s : BeaconState) (i : Nat) (s2 : BeaconState)
    (h : PenalizeValidator cfg s i = Except.ok s2) : s2.slot = s.slot := by
  unfold PenalizeValidator at h
  cases hg : s.validatorRegistry.get? i with
  | none => rw [hg] at h; exact Except.noConfusion h
  | some v =>
    rw [hg] at h
    injection h with h2
    rw [← h2]

/-- Penalizing one index leaves every other registry entry unchanged. -/
theorem PenalizeValidator_get_ne (cfg : Config) (s : BeaconState) (i j : Nat)
    (s2 : BeaconState) (h : PenalizeValidator cfg s i = Except.ok s2) (hne : i ≠ j) :
    s2.validatorRegistry.get? j = s.validatorRegistry.get? j := by
  unfold PenalizeValidator at h
  cases hg : s.validatorRegistry.get? i with
  | none => rw [hg] at h; exact Except.noConfusion h
  | some v =>
    rw [hg] at h
    injection h with h2
    rw [← h2]
    exact get?_set_ne _ _ _ _ hne

/-- Penalizing a list of indices not containing `j` leaves `j`'s registry
entry and the slot unchanged. -/
theorem penalizeAll_preserves (cfg : Config) :
    ∀ (idxs : List Nat) (s s2 : BeaconState) (j : Nat),
      penalizeAll cfg s idxs = Except.ok s2 → j ∉ idxs →
      s2.validatorRegistry.get? j = s.validatorRegistry.get? j ∧ s2.slot = s.slot := by
  intro idxs
  induction idxs with
  | nil =>
    intro s s2 j h _
    injection h with h2
    rw [← h2]
    exact ⟨rfl, rfl⟩
  | cons i rest ih =>
    intro s s2 j h hj
    unfold penalizeAll at h
    simp only [Bind.bind, Except.bind] at h
    cases hp : PenalizeValidator cfg s i with
    | error e => rw [hp] at h; exact Except.noConfusion h
    | ok s1 =>
      rw [hp] at h
      dsimp only at h
      have hij : i ≠ j := fun hc => hj (hc ▸ List.mem_cons_self i rest)
      have hjr : j ∉ rest := fun hc => hj (List.mem_cons_of_mem i hc)
      rcases ih s1 s2 j h hjr with ⟨hg2, hs2⟩
      constructor
      · rw [hg2, PenalizeValidator_get_ne cfg s i j s1 hp hij]
      · rw [hs2, PenalizeValidator_slot cfg s i s1 hp]

/-- Every index the inner matching loop emits equals the scanned index and
names a not-yet-penalized validator. -/
theorem slashableIndicesInner_mem (registry : List Validator) (ce idx1 : Nat) :
    ∀ (l2 out : List Nat), slashableIndicesInner registry ce idx1 l2 = Except.ok out →
      ∀ j ∈ out, ∃ p, registry.get? j = some p ∧ ce < p.penalizedEpoch := by
  intro l2
  induction l2 with
  | nil =>
    intro out h j hj
    injection h with h2
    rw [← h2] at hj
    exact absurd hj (List.not_mem_nil j)
  | cons idx2 rest ih =>
    intro out h j hj
    unfold slashableIndicesInner at h
    by_cases he : idx1 = idx2
    · rw [if_pos he] at h
      simp only [Bind.bind, Except.bind] at h
      cases hg : getIdx registry idx1 with
      | error e => rw [hg] at h; exact Except.noConfusion h
      | ok v =>
        rw [hg] at h
        dsimp only at h
        cases hi : slashableIndicesInner registry ce idx1 rest with
        | error e => rw [hi] at h; exact Except.noConfusion h
        | ok more =>
          rw [hi] at h
          dsimp only at h
          by_cases hpe : ce < v.penalizedEpoch
          · rw [if_pos hpe] at h
            injection h with h2
            rw [← h2] at hj
            rcases List.mem_cons.mp hj with rfl | hm
            · exact ⟨v, (getIdx_ok _ _ _).mp hg, hpe⟩
            · exact ih more hi j hm
          · rw [if_neg hpe] at h
            injection h with h2
            rw [← h2] at hj
            exact ih more hi j hj
    · rw [if_neg he] at h
      exact ih out h j hj

/-- Every index the outer matching loop emits names a not-yet-penalized
validator. -/
theorem slashableIndicesOuter_mem (registry : List Validator) (ce : Nat)
    (indices2 : List Nat) :
    ∀ (l1 out : List Nat), slashableIndicesOuter registry ce indices2 l1 = Except.ok out →
      ∀ j ∈ out, ∃ p, registry.get? j = some p ∧ ce < p.penalizedEpoch := by
  intro l1
  induction l1 with
  | nil =>
    intro out h j hj
    injection h with h2
    rw [← h2] at hj
    exact absurd hj (List.not_mem_nil j)
  | cons idx1 rest ih =>
    intro out h j hj
    unfold slashableIndicesOuter at h
    simp only [Bind.bind, Except.bind] at h
    cases hh : slashableIndicesInner registry ce idx1 indices2 with
    | error e => rw [hh] at h; exact Except.noConfusion h
    | ok here =>
      rw [hh] at h
      dsimp only at h
      cases hm : slashableIndicesOuter registry ce indices2 rest with
      | error e => rw [hm] at h; exact Except.noConfusion h
      | ok more =>
        rw [hm] at h
        dsimp only at h
        injection h with h2
        rw [← h2] at hj
        rcases List.mem_append.mp hj with hj1 | hj2
        · exact slashableIndicesInner_mem registry ce idx1 indices2 here hh j hj1
        · exact ih more hm j hj2

/-- Every index `attesterSlashableIndices` returns names a not-yet-penalized
validator of the given state. -/
theorem attesterSlashableIndices_mem (cfg : Config) (state : BeaconState)
    (slashing : AttesterSlashing) (idxs : List Nat)
    (h : attesterSlashableIndices cfg state slashing = Except.ok idxs) :
    ∀ j ∈ idxs, ∃ p, state.validatorRegistry.get? j = some p ∧
      CurrentEpoch cfg state < p.penalizedEpoch := by
  unfold attesterSlashableIndices at h
  simp only [Bind.bind, Except.bind] at h
  cases ho : slashableIndicesOuter state.validatorRegistry (CurrentEpoch cfg state)
      slashing.slashableAttestation2.validatorIndices
      slashing.slashableAttestation1.validatorIndices with
  | error e => rw [ho] at h; exact Except.noConfusion h
  | ok out =>
    rw [ho] at h
    dsimp only at h
    split at h
    · exact Except.noConfusion h
    · injection h with h2
      rw [← h2]
      exact slashableIndicesOuter_mem _ _ _ _ out ho

/-- Every index in the proposer-slashing penalization trace names a
validator of the pre-loop registry snapshot that was not yet penalized at
the initial current epoch. -/
theorem proposerSlashingsLoopTr_mem (cfg : Config) (vs : Bool) (registry : List Validator) :
    ∀ (l : List ProposerSlashing) (state s2 : BeaconState) (tr : List Nat) (j : Nat),
      processProposerSlashingsLoopTr cfg vs registry state l = Except.ok (s2, tr) →
      j ∈ tr →
      ∃ p, registry.get? j = some p ∧ CurrentEpoch cfg state < p.penalizedEpoch := by
  intro l
  induction l with
  | nil =>
    intro state s2 tr j h hj
    injection h with h2
    cases h2
    exact absurd hj (List.not_mem_nil j)
  | cons sl rest ih =>
    intro state s2 tr j h hj
    unfold processProposerSlashingsLoopTr at h
    simp only [Bind.bind, Except.bind] at h
    cases hvs : verifyProposerSlashing sl vs with
    | error e => rw [hvs] at h; exact Except.noConfusion h
    | ok u =>
      cases u
      rw [hvs] at h
      dsimp only at h
      cases hg : getIdx registry sl.proposerIndex with
      | error e => rw [hg] at h; exact Except.noConfusion h
      | ok proposer =>
        rw [hg] at h
        dsimp only at h
        by_cases hc : CurrentEpoch cfg state < proposer.penalizedEpoch
        · rw [if_pos hc] at h
          cases hp : PenalizeValidator cfg state sl.proposerIndex with
          | error e => rw [hp] at h; exact Except.noConfusion h
          | ok s1 =>
            rw [hp] at h
            dsimp only at h
            cases hrec : processProposerSlashingsLoopTr cfg vs registry s1 rest with
            | error e => rw [hrec] at h; exact Except.noConfusion h
            | ok pr =>
              cases pr with
              | mk s3 tr3 =>
                rw [hrec] at h
                dsimp only at h
                injection h with h2
                injection h2 with ha hb
                rw [← hb] at hj
                rcases List.mem_cons.mp hj with rfl | hm
                · exact ⟨proposer, (getIdx_ok _ _ _).mp hg, hc⟩
                · rcases ih s1 s3 tr3 j hrec hm with ⟨p, hp2, hpc⟩
                  refine ⟨p, hp2, ?_⟩
                  have hslot : CurrentEpoch cfg s1 = CurrentEpoch cfg state := by
                    unfold CurrentEpoch
                    rw [PenalizeValidator_slot cfg state sl.proposerIndex s1 hp]
                  rw [← hslot]
                  exact hpc
        · rw [if_neg hc] at h
          exact ih state s2 tr j h hj

/-- A validator already penalized at loop entry never appears in the
attester-slashing penalization trace. -/
theorem attesterSlashingsLoopTr_not_mem (cfg : Config) (vs : Bool) :
    ∀ (l : List AttesterSlashing) (state s2 : BeaconState) (tr : List Nat) (j : Nat)
      (v : Validator),
      processAttesterSlashingsLoopTr cfg vs state l = Except.ok (s2, tr) →
      state.validatorRegistry.get? j = some v →
      v.penalizedEpoch ≤ CurrentEpoch cfg state →
      j ∉ tr := by
  intro l
  induction l with
  | nil =>
    intro state s2 tr j v h _ _
    injection h with h2
    cases h2
    exact List.not_mem_nil j
  | cons sl rest ih =>
    intro state s2 tr j v h hv hpe
    unfold processAttesterSlashingsLoopTr at h
    simp only [Bind.bind, Except.bind] at h
    cases hvs : verifyAttesterSlashing cfg sl vs with
    | error e => rw [hvs] at h; exact Except.noConfusion h
    | ok u =>
      cases u
      rw [hvs] at h
      dsimp only at h
      cases hix : attesterSlashableIndices cfg state sl with
      | error e => rw [hix] at h; exact Except.noConfusion h
      | ok idxs =>
        rw [hix] at h
        dsimp only at h
        cases hpa : penalizeAll cfg state idxs with
        | error e => rw [hpa] at h; exact Except.noConfusion h
        | ok s1 =>
          rw [hpa] at h
          dsimp only at h
          cases hrec : processAttesterSlashingsLoopTr cfg vs s1 rest with
          | error e => rw [hrec] at h; exact Except.noConfusion h
          | ok pr =>
            cases pr with
            | mk s3 tr3 =>
              rw [hrec] at h
              dsimp only at h
              injection h with h2
              injection h2 with ha hb
              rw [← hb]
              have hj1 : j ∉ idxs := by
                intro hjm
                rcases attesterSlashableIndices_mem cfg state sl idxs hix j hjm with
                  ⟨p, hp, hpp⟩
                rw [hv] at hp
                rw [← Option.some.inj hp] at hpp
                exact absurd hpp (Nat.not_lt.mpr hpe)
              rcases penalizeAll_preserves cfg idxs state s1 j hpa hj1 with ⟨hg1, hs1⟩
              intro hmem
              rcases List.mem_append.mp hmem with hm1 | hm2
              · exact hj1 hm1
              · refine ih s1 s3 tr3 j v hrec ?_ ?_ hm2
                · rw [hg1]
                  exact hv
                · unfold CurrentEpoch
                  rw [hs1]
                  exact hpe

/-- The plain proposer-slashing loop is the first projection of its
instrumented version. -/
theorem processProposerSlashingsLoop_eq_fst (cfg : Config) (vs : Bool)
    (registry : List Validator) :
    ∀ (l : List ProposerSlashing) (state : BeaconState),
      processProposerSlashingsLoop cfg vs registry state l =
        Except.map Prod.fst (processProposerSlashingsLoopTr cfg vs registry state l) := by
  intro l
  induction l with
  | nil => intro state; rfl
  | cons sl rest ih =>
    intro state
    unfold processProposerSlashingsLoop processProposerSlashingsLoopTr
    simp only [Bind.bind, Except.bind]
    cases hvs : verifyProposerSlashing sl vs with
    | error e => rfl
    | ok u =>
      cases u
      dsimp only
      cases hg : getIdx registry sl.proposerIndex with
      | error e => rfl
      | ok proposer =>
        dsimp only
        by_cases hc : CurrentEpoch cfg state < proposer.penalizedEpoch
        · rw [if_pos hc, if_pos hc]
          cases hp : PenalizeValidator cfg state sl.proposerIndex with
          | error e => rfl
          | ok s1 =>
            dsimp only
            rw [ih s1]
            cases hrec : processProposerSlashingsLoopTr cfg vs registry s1 rest with
            | error e => rfl
            | ok pr => rfl
        · rw [if_neg hc, if_neg hc]
          rw [ih state]

/-- The plain attester-slashing loop is the first projection of its
instrumented version. -/
theorem processAttesterSlashingsLoop_eq_fst (cfg : Config) (vs : Bool) :
    ∀ (l : List AttesterSlashing) (state : BeaconState),
      processAttesterSlashingsLoop cfg vs state l =
        Except.map Prod.fst (processAttesterSlashingsLoopTr cfg vs state l) := by
  intro l
  induction l with
  | nil => intro state; rfl
  | cons sl rest ih =>
    intro state
    unfold processAttesterSlashingsLoop processAttesterSlashingsLoopTr
    simp only [Bind.bind, Except.bind]
    cases hvs : verifyAttesterSlashing cfg sl vs with
    | error e => rfl
    | ok u =>
      cases u
      dsimp only
      cases hix : attesterSlashableIndices cfg state sl with
      | error e => rfl
      | ok idxs =>
        dsimp only
        cases hpa : penalizeAll cfg state idxs with
        | error e => rfl
        | ok s1 =>
          dsimp only
          rw [ih s1]
          cases hrec : processAttesterSlashingsLoopTr cfg vs s1 rest with
          | error e => rfl
          | ok pr => rfl

/-- Claim C9: a validator whose `penalized_epoch` is at most the current
epoch when the block arrives is never passed to `penalize_validator` by
`ProcessProposerSlashings` or `ProcessAttesterSlashings` (its index is
absent from either penalization trace), and the two processors compute
exactly the first projection of their instrumented versions. -/
theorem c9_slashing_monotonicity (cfg : Config) (state : BeaconState) (block : BeaconBlock)
    (vs : Bool) (i : Nat) (v : Validator)
    (hv : state.validatorRegistry.get? i = some v)
    (hpe : v.penalizedEpoch ≤ CurrentEpoch cfg state) :
    (∀ s tr, proposerSlashingsTrace cfg state block vs = Except.ok (s, tr) → i ∉ tr) ∧
    (∀ s tr, attesterSlashingsTrace cfg state block vs = Except.ok (s, tr) → i ∉ tr) ∧
    ProcessProposerSlashings cfg state block vs =
      Except.map Prod.fst (proposerSlashingsTrace cfg state block vs) ∧
    ProcessAttesterSlashings cfg state block vs =
      Except.map Prod.fst (attesterSlashingsTrace cfg state block vs) := by
  refine ⟨?_, ?_, ?_, ?_⟩
  · intro s tr h hmem
    unfold proposerSlashingsTrace at h
    split at h
    · exact Except.noConfusion h
    · rcases proposerSlashingsLoopTr_mem cfg vs state.validatorRegistry
        block.body.proposerSlashings state s tr i h hmem with ⟨p, hp, hpc⟩
      rw [hv] at hp
      rw [← Option.some.inj hp] at hpc
      exact absurd hpc (Nat.not_lt.mpr hpe)
  · intro s tr h hmem
    unfold attesterSlashingsTrace at h
    split at h
    · exact Except.noConfusion h
    · exact attesterSlashingsLoopTr_not_mem cfg vs block.body.attesterSlashings
        state s tr i v h hv hpe hmem
  · unfold ProcessProposerSlashings proposerSlashingsTrace
    split
    · rfl
    · exact processProposerSlashingsLoop_eq_fst cfg vs state.validatorRegistry
        block.body.proposerSlashings state
  · unfold ProcessAttesterSlashings attesterSlashingsTrace
    split
    · rfl
    · exact processAttesterSlashingsLoop_eq_fst cfg vs block.body.attesterSlashings state

/-- Witness for C9: on a state whose only validator is already penalized at
the current epoch, a block with a well-formed proposer slashing naming that
validator is processed with an empty penalization trace. -/
theorem c9_slashing_monotonicity_witness :
    proposerSlashingsTrace cfgSpec stReg1 blkMono false = Except.ok (stReg1, []) ∧
    (0 : Nat) ∉ ([] : List Nat) :=
  ⟨rfl, (c9_slashing_monotonicity cfgSpec stReg1 blkMono false 0 v0 rfl
    (Nat.le_refl 0)).1 stReg1 [] rfl⟩

end Prysm
